import Mathlib

/-!
Shallow embedding of the `torchio` repository fragment consisting of
`torchio/data/images.py` (Image, Subject, ImagesDataset) and
`torchio/transforms/augmentation/spatial/random_affine.py` (RandomAffine),
together with the small constants and helpers those files import from
elsewhere in the repository.  External libraries (SimpleITK, NumPy, torch
tensors, file I/O) are modelled symbolically: their calls become
uninterpreted constructors or environment functions, so the embedding
records exactly which external operation the code delegates to.
Floating-point values are embedded as rationals; the degree-to-radian
conversion, which involves π, lands in ℝ.
-/

namespace Torchio

/-- Modelled from the spec: the string constants `DATA`, `AFFINE`, `LABEL`,
`INTENSITY` live in `torchio/torchio.py`, which is not under `src/`; the
transforms compare an image dict's `type` entry against `LABEL` to decide
the interpolation. -/
def LABEL : String := "label"

/-- Modelled from the spec: the `INTENSITY` image-type constant from
`torchio/torchio.py` (not under `src/`). -/
def INTENSITY : String := "intensity"

/-- Modelled from the spec: the `Interpolation` enum from
`torchio/transforms` (not under `src/`); its members wrap SimpleITK
interpolator identifiers, of which the sources use `LINEAR` (the default)
and `NEAREST` (forced for label images). -/
inductive Interpolation where
  | NEAREST
  | LINEAR
  | BSPLINE
deriving DecidableEq, Repr

/-- A SimpleITK geometric transform, as built by `random_affine.py`:
`sitk.ScaleTransform(3)` with `SetScale`, `sitk.Euler3DTransform` with
`SetRotation`, and `sitk.Transform(3, sitk.sitkComposite)` to which
transforms are added in order by `AddTransform`. -/
inductive SitkTransform where
  | scale (factors : List ℚ)
  | euler3d (angles : List ℝ)
  | composite (ts : List SitkTransform)

mutual
/-- A 3D volume: either a raw volume read from disk (identified by an id and
its shape) or the array obtained back from a SimpleITK image
(`sitk.GetArrayFromImage` followed by the ITK-to-NumPy transpose and
`torch.from_numpy`). -/
inductive Tensor3 where
  | raw (id : ℕ) (shape3 : List ℕ)
  | fromSitk (img : SitkImage)

/-- A SimpleITK image: either produced from a volume and its affine by
`RandomTransform.nib_to_sitk` (repository code not under `src/`, modelled
symbolically), or the result of the external `sitk.Resample` call on an
image with a transform and an interpolator.  `resampled` is an
uninterpreted constructor: the repository implements no resampling or
interpolation kernel of its own. -/
inductive SitkImage where
  | fromNib (data : Tensor3) (affine : List (List ℚ))
  | resampled (img : SitkImage) (t : SitkTransform) (interp : Interpolation)
end

mutual
/-- Shape of a volume; resampling without an explicit reference grid keeps
the input image's grid, and the two transpositions (NumPy-to-ITK and back)
cancel, so a round-tripped volume keeps the underlying raw shape. -/
def tensor3Shape : Tensor3 → List ℕ
  | .raw _ s => s
  | .fromSitk img => sitkShape img

/-- Shape of the volume underlying a SimpleITK image. -/
def sitkShape : SitkImage → List ℕ
  | .fromNib d _ => tensor3Shape d
  | .resampled i _ _ => sitkShape i
end

/-- A 4D tensor `(C, D, H, W)` as a list of channel volumes; `Image.load`
produces exactly one channel via `unsqueeze(0)`. -/
structure Tensor4 where
  channels : List Tensor3

/-- The full shape of a 4D tensor, as the list of its channel shapes (this
determines both the channel count and each spatial shape, which is what
`check_consistent_shape` compares). -/
def tensor4Shape (t : Tensor4) : List (List ℕ) :=
  t.channels.map tensor3Shape

/-- The image dict built by `ImagesDataset.__getitem__`: keys `DATA`,
`AFFINE`, `'type'`, `'path'`, `'stem'`. -/
structure ImageDict where
  data : Tensor4
  affine : List (List ℚ)
  type_ : String
  path : String
  stem : String

/-- A value stored in a sample dict: an image dict, a list of floats (the
stored random parameters), or any other Python value (opaque). -/
inductive SampleValue where
  | img (d : ImageDict)
  | floats (xs : List ℚ)
  | other (id : ℕ)

/-- A sample: a Python dict from names to values, embedded as an ordered
association list with Python's dict update semantics. -/
def Sample : Type := List (String × SampleValue)

/-- Python dict assignment `d[k] = v`: replace the value at an existing key in
place, otherwise append the new key at the end. -/
def dictSet : Sample → String → SampleValue → Sample
  | [], k, v => [(k, v)]
  | (k', v') :: rest, k, v =>
    if k' = k then (k, v) :: rest else (k', v') :: dictSet rest k v

/-- Python dict lookup `d.get(k)`. -/
def dictGet : Sample → String → Option SampleValue
  | [], _ => none
  | (k', v') :: rest, k => if k' = k then some v' else dictGet rest k

/-- Modelled from the spec: `is_image_dict` from `torchio/utils.py` (not
under `src/`) recognises the image dicts built by the dataset, so the
transform skips every other sample entry. -/
def is_image_dict : SampleValue → Bool
  | .img _ => true
  | _ => false

/-- The shapes of all image-dict data tensors in a sample. -/
def imageShapes (s : Sample) : List (List (List ℕ)) :=
  s.filterMap fun kv =>
    match kv.2 with
    | .img d => some (tensor4Shape d.data)
    | _ => none

/-- Modelled from the spec: `check_consistent_shape` from
`torchio/utils.py` (not under `src/`) raises unless all image data tensors
in the sample share one shape; this is the predicate under which it
passes. -/
def consistentShapes (s : Sample) : Bool :=
  match imageShapes s with
  | [] => true
  | sh :: rest => rest.all fun x => x = sh

/-! ## RandomAffine (`random_affine.py`) -/

/-- One draw of `torch.FloatTensor.uniform_(lo, hi)`, with the underlying
unit sample `u ∈ [0, 1)` made explicit. -/
def uniformDraw (lo hi u : ℚ) : ℚ := lo + u * (hi - lo)

/-- Embeds `RandomAffine.get_params`: draw three scaling factors uniformly from
`scales` and three rotation angles uniformly from `degrees`; when
`isotropic`, `fill_` overwrites all scaling entries with the first one.
The six unit samples of the random generator are passed in as `u`. -/
def get_params (scales degrees : ℚ × ℚ) (isotropic : Bool)
    (u : Fin 6 → ℚ) : List ℚ × List ℚ :=
  let s0 := uniformDraw scales.1 scales.2 (u 0)
  let s1 := uniformDraw scales.1 scales.2 (u 1)
  let s2 := uniformDraw scales.1 scales.2 (u 2)
  let scaling_params := if isotropic then [s0, s0, s0] else [s0, s1, s2]
  let r0 := uniformDraw degrees.1 degrees.2 (u 3)
  let r1 := uniformDraw degrees.1 degrees.2 (u 4)
  let r2 := uniformDraw degrees.1 degrees.2 (u 5)
  (scaling_params, [r0, r1, r2])

/-- Embeds `RandomAffine.get_scaling_transform`: a 3D `sitk.ScaleTransform` whose
scale factors are the reciprocals of the sampled parameters. -/
def get_scaling_transform (scaling_params : List ℚ) : SitkTransform :=
  .scale (scaling_params.map fun s => 1 / s)

/-- Embeds `np.radians`, degree-to-radian conversion. -/
noncomputable def np_radians (d : ℚ) : ℝ := (d : ℝ) * Real.pi / 180

/-- Embeds `RandomAffine.get_rotation_transform`: a `sitk.Euler3DTransform` whose
angles are the sampled degrees converted to radians. -/
noncomputable def get_rotation_transform (degrees : List ℚ) : SitkTransform :=
  .euler3d (degrees.map np_radians)

/-- Embeds `RandomAffine.apply_affine_transform`: asserts a 4D single-channel
array, converts channel 0 to a SimpleITK image, composes the scaling and
rotation transforms (scaling added first), delegates to `sitk.Resample`,
and writes the converted result back into channel 0. -/
noncomputable def apply_affine_transform (array : Tensor4)
    (affine : List (List ℚ)) (scaling_params rotation_params : List ℚ)
    (interpolation : Interpolation) : Option Tensor4 :=
  match array.channels with
  | [c] =>
    let image := SitkImage.fromNib c affine
    let scaling_transform := get_scaling_transform scaling_params
    let rotation_transform := get_rotation_transform rotation_params
    let composed := SitkTransform.composite [scaling_transform, rotation_transform]
    let res := SitkImage.resampled image composed interpolation
    some ⟨[Tensor3.fromSitk res]⟩
  | _ => none

/-- The `RandomAffine` transform's configuration after `__init__` (scales,
parsed degrees interval, isotropic flag, parsed image interpolation). -/
structure RandomAffine where
  scales : ℚ × ℚ
  degrees : ℚ × ℚ
  isotropic : Bool
  interpolation : Interpolation

/-- The interpolation chosen for one image dict inside
`RandomAffine.apply_transform`: `NEAREST` for label images, the configured
interpolation otherwise. -/
def chooseInterpolation (ra : RandomAffine) (d : ImageDict) : Interpolation :=
  if d.type_ = LABEL then Interpolation.NEAREST else ra.interpolation

/-- The loop body of `RandomAffine.apply_transform` on one sample value:
non-image values are skipped, image dicts get their `DATA` entry replaced
by the affine-resampled tensor. -/
noncomputable def transformValue (ra : RandomAffine)
    (scaling_params rotation_params : List ℚ) :
    SampleValue → Option SampleValue
  | .img d =>
    match apply_affine_transform d.data d.affine scaling_params
        rotation_params (chooseInterpolation ra d) with
    | some t => some (.img ⟨t, d.affine, d.type_, d.path, d.stem⟩)
    | none => none
  | v => some v

/-- The `for image_dict in sample.values()` loop of
`RandomAffine.apply_transform`, over all entries in order. -/
noncomputable def transformValues (ra : RandomAffine)
    (scaling_params rotation_params : List ℚ) : Sample → Option Sample
  | [] => some []
  | (k, v) :: rest =>
    match transformValue ra scaling_params rotation_params v with
    | none => none
    | some v' =>
      match transformValues ra scaling_params rotation_params rest with
      | none => none
      | some rest' => some ((k, v') :: rest')

/-- Embeds `RandomAffine.apply_transform`: check shape consistency, sample the
parameters, store them under `'random_scaling'` and `'random_rotation'`,
then resample every image dict's data in place.  `none` embeds the raised
exception (inconsistent shapes, or a failed channel assertion). -/
noncomputable def apply_transform (ra : RandomAffine) (u : Fin 6 → ℚ)
    (sample : Sample) : Option Sample :=
  if consistentShapes sample then
    let params := get_params ra.scales ra.degrees ra.isotropic u
    let s1 := dictSet sample "random_scaling" (.floats params.1)
    let s2 := dictSet s1 "random_rotation" (.floats params.2)
    transformValues ra params.1 params.2 s2
  else none

/-! ## Image, Subject, ImagesDataset (`images.py`) -/

/-- The Python exceptions `images.py` raises, with their messages. -/
inductive PyError where
  | typeError (msg : String)
  | fileNotFoundError (msg : String)
  | valueError (msg : String)
  | keyError (msg : String)
deriving DecidableEq, Repr

/-- The `path` argument of `Image.__init__`: either something `Path(...)`
accepts (a string or os.PathLike, carried as its string form) or a value
on which `Path(...)` raises `TypeError`. -/
inductive PathArg where
  | str (s : String)
  | notPathlike (id : ℕ)
deriving DecidableEq, Repr

/-- The environment the `images.py` code runs against: `~`-expansion and
file-system queries for path parsing, and `read_image` from
`torchio/data/io.py` (not under `src/`, modelled as an uninterpreted
reader) returning a 3D tensor and a 4x4 affine. -/
structure Env where
  expanduser : String → String
  isFile : String → Bool
  isDir : String → Bool
  readData : String → Tensor3 × List (List ℚ)

/-- Embeds `Image._parse_path`: convert to a `Path` (TypeError when impossible),
expand the user directory, and require an existing file or directory
(FileNotFoundError otherwise); the expanded path is returned. -/
def parse_path (env : Env) (name : String) : PathArg → Except PyError String
  | .notPathlike _ =>
    .error (.typeError "Conversion to path not possible for variable")
  | .str s =>
    let p := env.expanduser s
    if env.isFile p || env.isDir p then .ok p
    else .error (.fileNotFoundError ("File for image " ++ name ++ " not found: " ++ p))

/-- A constructed `Image` object: the stored name, parsed path and type. -/
structure ImageObj where
  name : String
  path : String
  type_ : String
deriving DecidableEq, Repr

/-- Embeds `Image.__init__`: store the name, the parsed path and the type.  No
image data is read; only `parse_path` runs. -/
def mkImage (env : Env) (name : String) (path : PathArg) (type_ : String) :
    Except PyError ImageObj :=
  match parse_path env name path with
  | .ok p => .ok ⟨name, p, type_⟩
  | .error e => .error e

/-- Embeds `Image.load`: read the tensor and affine from disk at the stored path
and add the channels dimension with `unsqueeze(0)`. -/
def loadImage (env : Env) (img : ImageObj) : Tensor4 × List (List ℚ) :=
  let ta := env.readData img.path
  (⟨[ta.1]⟩, ta.2)

/-- An element of the argument list of `Subject(*images)`: an `Image`
instance or any other Python value. -/
inductive PyVal where
  | image (img : ImageObj)
  | notImage (id : ℕ)
deriving DecidableEq, Repr

/-- The per-element loop of `Subject._parse_images`, with the list of
names seen so far: a non-`Image` element raises `TypeError`, a repeated
name raises `KeyError`. -/
def parse_images_loop : List String → List PyVal → Except PyError Unit
  | _, [] => .ok ()
  | names, v :: rest =>
    match v with
    | .notImage _ =>
      .error (.typeError "Subject list elements must be instances of torchio.Image")
    | .image img =>
      if img.name ∈ names then
        .error (.keyError ("More than one image with name " ++ img.name ++ " found in images list"))
      else parse_images_loop (names ++ [img.name]) rest

/-- Embeds `Subject._parse_images`: the argument tuple is always a sequence, so
the checks are non-emptiness and the per-element loop. -/
def parse_images (images : List PyVal) : Except PyError Unit :=
  if images.isEmpty then .error (.valueError "Images list is empty")
  else parse_images_loop [] images

/-- A constructed `Subject`: the validated images (in order, as stored by
`super().__init__(images)`) and the subject name. -/
structure Subject where
  images : List PyVal
  name : String
deriving DecidableEq, Repr

/-- Embeds `Subject.__init__`: validate the images, then store them in order. -/
def mkSubject (images : List PyVal) (name : String) : Except PyError Subject :=
  match parse_images images with
  | .ok _ => .ok ⟨images, name⟩
  | .error e => .error e

/-- Modelled from the spec: `get_stem` from `torchio/utils.py` (not under
`src/`); the sample stores the image path's stem, the file name stripped
of its extensions. -/
def get_stem (path : String) : String :=
  let filename := ((path.splitOn "/").reverse).headD ""
  ((filename.splitOn ".").headD "")

/-- A constructed `ImagesDataset`: the stored subjects list and the
optional transform (set at construction or by `set_transform`). -/
structure ImagesDataset where
  subjects : List Subject
  transform : Option (Sample → Sample)

/-- The per-subject loop of `ImagesDataset._parse_subjects_list`. -/
def parse_subjects_loop : List Subject → Except PyError Unit
  | [] => .ok ()
  | s :: rest =>
    match mkSubject s.images s.name with
    | .ok _ => parse_subjects_loop rest
    | .error e => .error e

/-- Embeds `ImagesDataset._parse_subjects_list`: require a non-empty sequence and
re-run `Subject(*subject_list)` validation on each element. -/
def parse_subjects_list : List Subject → Except PyError Unit
  | [] => .error (.valueError "Subjects list is empty")
  | subjects => parse_subjects_loop subjects

/-- Embeds `ImagesDataset.__init__`: validate the subjects list, then store it
with the optional transform. -/
def mkImagesDataset (subjects : List Subject)
    (transform : Option (Sample → Sample)) : Except PyError ImagesDataset :=
  match parse_subjects_list subjects with
  | .ok _ => .ok ⟨subjects, transform⟩
  | .error e => .error e

/-- Embeds `ImagesDataset.set_transform`: replace the stored transform. -/
def set_transform (ds : ImagesDataset) (t : Option (Sample → Sample)) :
    ImagesDataset :=
  ⟨ds.subjects, t⟩

/-- The image dict `__getitem__` builds for one image: the loaded data
tensor, the affine, the type, the path string and the stem. -/
def buildEntry (env : Env) (img : ImageObj) : SampleValue :=
  let ta := loadImage env img
  .img ⟨ta.1, ta.2, img.type_, img.path, get_stem img.path⟩

/-- The sample-building loop of `__getitem__`: `sample[image.name] =
image_dict` for each element of the subject; a non-`Image` element crashes
(`none`). -/
def buildSample (env : Env) : List PyVal → Sample → Option Sample
  | [], acc => some acc
  | .notImage _ :: _, _ => none
  | .image img :: rest, acc =>
    buildSample env rest (dictSet acc img.name (buildEntry env img))

/-- Embeds `ImagesDataset.__getitem__` at a valid index: build the sample from
subject `i`, then apply the transform when one is set. -/
def getitem (env : Env) (ds : ImagesDataset) (i : ℕ)
    (h : i < ds.subjects.length) : Option Sample :=
  match buildSample env (ds.subjects.get ⟨i, h⟩).images [] with
  | none => none
  | some sample =>
    match ds.transform with
    | none => some sample
    | some t => some (t sample)

/-! ## Dictionary lemmas -/

theorem dictGet_dictSet_self (s : Sample) (k : String) (v : SampleValue) :
    dictGet (dictSet s k v) k = some v := by
  induction s with
  | nil => simp [dictSet, dictGet]
  | cons hd tl ih =>
    obtain ⟨k0, v0⟩ := hd
    by_cases h0 : k0 = k
    · simp [dictSet, dictGet, h0]
    · simp [dictSet, dictGet, h0, ih]

theorem dictGet_dictSet_ne (s : Sample) {k k' : String} (v : SampleValue)
    (h : k' ≠ k) : dictGet (dictSet s k v) k' = dictGet s k' := by
  have hne : ¬ k = k' := fun hh => h hh.symm
  induction s with
  | nil => simp [dictSet, dictGet, hne]
  | cons hd tl ih =>
    obtain ⟨k0, v0⟩ := hd
    by_cases h0 : k0 = k
    · subst h0
      simp [dictSet, dictGet, hne]
    · by_cases h1 : k0 = k'
      · simp [dictSet, dictGet, h0, h1, h]
      · simp [dictSet, dictGet, h0, h1, ih]

theorem dictSet_keys_mem (k : String) (v : SampleValue) :
    ∀ (s : Sample) (k' : String), k' ∈ (dictSet s k v).map Prod.fst →
      k' ∈ s.map Prod.fst ∨ k' = k := by
  intro s
  induction s with
  | nil =>
    intro k' h
    simp [dictSet] at h
    exact Or.inr h
  | cons hd tl ih =>
    obtain ⟨k0, v0⟩ := hd
    intro k' h
    by_cases h0 : k0 = k
    · subst h0
      simp only [dictSet, if_true, eq_self_iff_true, List.map_cons,
        List.mem_cons] at h
      simp only [List.map_cons, List.mem_cons]
      rcases h with h | h
      · exact Or.inr h
      · exact Or.inl (Or.inr h)
    · simp only [dictSet, if_neg h0, List.map_cons, List.mem_cons] at h
      simp only [List.map_cons, List.mem_cons]
      rcases h with h | h
      · exact Or.inl (Or.inl h)
      · rcases ih k' h with h' | h'
        · exact Or.inl (Or.inr h')
        · exact Or.inr h'

/-! ## Lemmas on the apply_transform loop -/

theorem transformValues_get (ra : RandomAffine) (sp rp : List ℚ) :
    ∀ (s out : Sample), transformValues ra sp rp s = some out →
    ∀ (k : String) (v : SampleValue), dictGet s k = some v →
    ∃ v', transformValue ra sp rp v = some v' ∧ dictGet out k = some v' := by
  intro s
  induction s with
  | nil => intro out h k v hv; simp [dictGet] at hv
  | cons hd tl ih =>
    obtain ⟨k0, v0⟩ := hd
    intro out h k v hv
    rw [transformValues] at h
    cases h0 : transformValue ra sp rp v0 with
    | none => rw [h0] at h; exact absurd h (by simp)
    | some v0' =>
      rw [h0] at h
      cases h1 : transformValues ra sp rp tl with
      | none => rw [h1] at h; exact absurd h (by simp)
      | some tl' =>
        rw [h1] at h
        simp only [Option.some_inj] at h
        subst h
        by_cases hk : k0 = k
        · subst hk
          simp [dictGet] at hv
          subst hv
          exact ⟨v0', h0, by simp [dictGet]⟩
        · simp only [dictGet, if_neg hk] at hv
          obtain ⟨v', hv', hout⟩ := ih tl' h1 k v hv
          exact ⟨v', hv', by simp [dictGet, if_neg hk, hout]⟩

theorem transformValues_keys (ra : RandomAffine) (sp rp : List ℚ) :
    ∀ (s out : Sample), transformValues ra sp rp s = some out →
    out.map Prod.fst = s.map Prod.fst := by
  intro s
  induction s with
  | nil => intro out h; simp [transformValues] at h; subst h; rfl
  | cons hd tl ih =>
    obtain ⟨k0, v0⟩ := hd
    intro out h
    rw [transformValues] at h
    cases h0 : transformValue ra sp rp v0 with
    | none => rw [h0] at h; exact absurd h (by simp)
    | some v0' =>
      rw [h0] at h
      cases h1 : transformValues ra sp rp tl with
      | none => rw [h1] at h; exact absurd h (by simp)
      | some tl' =>
        rw [h1] at h
        simp only [Option.some_inj] at h
        subst h
        simp [ih tl' h1]

theorem transformValue_floats (ra : RandomAffine) (sp rp : List ℚ)
    (xs : List ℚ) :
    transformValue ra sp rp (.floats xs) = some (.floats xs) := rfl

theorem transformValue_other (ra : RandomAffine) (sp rp : List ℚ) (n : ℕ) :
    transformValue ra sp rp (.other n) = some (.other n) := rfl

/-- Unfolding of `apply_transform` when the shape check passes. -/
theorem apply_transform_eq (ra : RandomAffine) (u : Fin 6 → ℚ)
    (sample : Sample) (hc : consistentShapes sample = true) :
    apply_transform ra u sample =
      transformValues ra (get_params ra.scales ra.degrees ra.isotropic u).1
        (get_params ra.scales ra.degrees ra.isotropic u).2
        (dictSet (dictSet sample "random_scaling"
            (.floats (get_params ra.scales ra.degrees ra.isotropic u).1))
          "random_rotation"
          (.floats (get_params ra.scales ra.degrees ra.isotropic u).2)) := by
  simp only [apply_transform, hc, if_true]

/-- What `apply_transform` does to an image entry of the sample (at a key
other than the two parameter keys): the `DATA` tensor's single channel is
replaced by the result of the delegated resampling through the composed
scale-then-rotation transform, every other field kept. -/
theorem apply_transform_image (ra : RandomAffine) (u : Fin 6 → ℚ)
    (sample out : Sample) (h : apply_transform ra u sample = some out)
    (k : String) (d : ImageDict)
    (hk1 : k ≠ "random_scaling") (hk2 : k ≠ "random_rotation")
    (hd : dictGet sample k = some (.img d)) :
    ∃ c, d.data.channels = [c] ∧
      dictGet out k = some (.img ⟨⟨[Tensor3.fromSitk (SitkImage.resampled
        (SitkImage.fromNib c d.affine)
        (SitkTransform.composite
          [get_scaling_transform (get_params ra.scales ra.degrees ra.isotropic u).1,
           get_rotation_transform (get_params ra.scales ra.degrees ra.isotropic u).2])
        (chooseInterpolation ra d))]⟩, d.affine, d.type_, d.path, d.stem⟩) := by
  by_cases hc : consistentShapes sample = true
  · rw [apply_transform_eq ra u sample hc] at h
    have hget : dictGet (dictSet (dictSet sample "random_scaling"
        (.floats (get_params ra.scales ra.degrees ra.isotropic u).1))
        "random_rotation"
        (.floats (get_params ra.scales ra.degrees ra.isotropic u).2)) k
        = some (.img d) := by
      rw [dictGet_dictSet_ne _ _ hk2, dictGet_dictSet_ne _ _ hk1]
      exact hd
    obtain ⟨v', hv', hout⟩ := transformValues_get _ _ _ _ _ h k _ hget
    rcases hch : d.data.channels with _ | ⟨c, _ | ⟨c2, rest⟩⟩
    · simp [transformValue, apply_affine_transform, hch] at hv'
    · refine ⟨c, rfl, ?_⟩
      simp only [transformValue, apply_affine_transform, hch,
        Option.some_inj] at hv'
      rw [hv']
      exact hout
    · simp [transformValue, apply_affine_transform, hch] at hv'
  · simp only [apply_transform, hc, if_false] at h
    exact absurd h (by simp)

/-- Shows `apply_transform` stores the sampled parameters under the two keys. -/
theorem apply_transform_params (ra : RandomAffine) (u : Fin 6 → ℚ)
    (sample out : Sample) (h : apply_transform ra u sample = some out) :
    dictGet out "random_scaling" =
        some (.floats (get_params ra.scales ra.degrees ra.isotropic u).1) ∧
      dictGet out "random_rotation" =
        some (.floats (get_params ra.scales ra.degrees ra.isotropic u).2) := by
  by_cases hc : consistentShapes sample = true
  · rw [apply_transform_eq ra u sample hc] at h
    constructor
    · have hget : dictGet (dictSet (dictSet sample "random_scaling"
          (.floats (get_params ra.scales ra.degrees ra.isotropic u).1))
          "random_rotation"
          (.floats (get_params ra.scales ra.degrees ra.isotropic u).2))
          "random_scaling"
          = some (.floats (get_params ra.scales ra.degrees ra.isotropic u).1) := by
        rw [dictGet_dictSet_ne _ _ (by decide), dictGet_dictSet_self]
      obtain ⟨v', hv', hout⟩ := transformValues_get _ _ _ _ _ h _ _ hget
      rw [transformValue_floats] at hv'
      simp only [Option.some_inj] at hv'
      rw [hv']
      exact hout
    · have hget : dictGet (dictSet (dictSet sample "random_scaling"
          (.floats (get_params ra.scales ra.degrees ra.isotropic u).1))
          "random_rotation"
          (.floats (get_params ra.scales ra.degrees ra.isotropic u).2))
          "random_rotation"
          = some (.floats (get_params ra.scales ra.degrees ra.isotropic u).2) := by
        rw [dictGet_dictSet_self]
      obtain ⟨v', hv', hout⟩ := transformValues_get _ _ _ _ _ h _ _ hget
      rw [transformValue_floats] at hv'
      simp only [Option.some_inj] at hv'
      rw [hv']
      exact hout
  · simp only [apply_transform, hc, if_false] at h
    exact absurd h (by simp)

/-- Shows `apply_transform` keeps non-image entries (away from the two parameter
keys) untouched. -/
theorem apply_transform_nonimage (ra : RandomAffine) (u : Fin 6 → ℚ)
    (sample out : Sample) (h : apply_transform ra u sample = some out)
    (k : String) (v : SampleValue)
    (hk1 : k ≠ "random_scaling") (hk2 : k ≠ "random_rotation")
    (hv : dictGet sample k = some v) (hni : is_image_dict v = false) :
    dictGet out k = some v := by
  by_cases hc : consistentShapes sample = true
  · rw [apply_transform_eq ra u sample hc] at h
    have hget : dictGet (dictSet (dictSet sample "random_scaling"
        (.floats (get_params ra.scales ra.degrees ra.isotropic u).1))
        "random_rotation"
        (.floats (get_params ra.scales ra.degrees ra.isotropic u).2)) k
        = some v := by
      rw [dictGet_dictSet_ne _ _ hk2, dictGet_dictSet_ne _ _ hk1]
      exact hv
    obtain ⟨v', hv', hout⟩ := transformValues_get _ _ _ _ _ h k _ hget
    rcases v with d | xs | n
    · simp [is_image_dict] at hni
    · rw [transformValue_floats] at hv'
      simp only [Option.some_inj] at hv'
      rw [hv']
      exact hout
    · rw [transformValue_other] at hv'
      simp only [Option.some_inj] at hv'
      rw [hv']
      exact hout
  · simp only [apply_transform, hc, if_false] at h
    exact absurd h (by simp)

/-- Every key of the output of `apply_transform` is a key of the input or
one of the two parameter keys. -/
theorem apply_transform_keys (ra : RandomAffine) (u : Fin 6 → ℚ)
    (sample out : Sample) (h : apply_transform ra u sample = some out)
    (k : String) (hk : k ∈ out.map Prod.fst) :
    k ∈ sample.map Prod.fst ∨ k = "random_scaling" ∨ k = "random_rotation" := by
  by_cases hc : consistentShapes sample = true
  · rw [apply_transform_eq ra u sample hc] at h
    rw [transformValues_keys _ _ _ _ _ h] at hk
    rcases dictSet_keys_mem _ _ _ _ hk with hk' | hk'
    · rcases dictSet_keys_mem _ _ _ _ hk' with hk'' | hk''
      · exact Or.inl hk''
      · exact Or.inr (Or.inl hk'')
    · exact Or.inr (Or.inr hk')
  · simp only [apply_transform, hc, if_false] at h
    exact absurd h (by simp)

/-! ## Claim theorems about RandomAffine -/

/-- C1: `RandomAffine.apply_transform` samples scaling and rotation
parameters, stores them in the sample under `'random_scaling'` and
`'random_rotation'`, and replaces the `DATA` entry of every image dict
with the result of resampling that volume through a composed geometric
transform, the resampling being delegated to the external
`sitk.Resample` (an uninterpreted constructor here: the code implements
no resampling or interpolation kernel of its own). -/
theorem claim_C1 (ra : RandomAffine) (u : Fin 6 → ℚ) (sample out : Sample)
    (h : apply_transform ra u sample = some out) :
    dictGet out "random_scaling" =
        some (.floats (get_params ra.scales ra.degrees ra.isotropic u).1) ∧
    dictGet out "random_rotation" =
        some (.floats (get_params ra.scales ra.degrees ra.isotropic u).2) ∧
    ∀ (k : String) (d : ImageDict),
      k ≠ "random_scaling" → k ≠ "random_rotation" →
      dictGet sample k = some (.img d) →
      ∃ (c : Tensor3) (t : SitkTransform) (interp : Interpolation),
        d.data.channels = [c] ∧
        dictGet out k = some (.img ⟨⟨[Tensor3.fromSitk
          (SitkImage.resampled (SitkImage.fromNib c d.affine) t interp)]⟩,
          d.affine, d.type_, d.path, d.stem⟩) := by
  refine ⟨(apply_transform_params ra u sample out h).1,
    (apply_transform_params ra u sample out h).2, ?_⟩
  intro k d hk1 hk2 hd
  obtain ⟨c, hc, hout⟩ := apply_transform_image ra u sample out h k d hk1 hk2 hd
  exact ⟨c, _, _, hc, hout⟩

/-- C5: the composed transform each volume is resampled through consists
of exactly an affine scaling whose factors are the reciprocals `1/s` of
the sampled scaling parameters, and an Euler rotation whose angles are
the sampled degrees converted to radians, with the scale transform added
to the composite before the rotation transform. -/
theorem claim_C5 (ra : RandomAffine) (u : Fin 6 → ℚ) (sample out : Sample)
    (h : apply_transform ra u sample = some out)
    (k : String) (d : ImageDict)
    (hk1 : k ≠ "random_scaling") (hk2 : k ≠ "random_rotation")
    (hd : dictGet sample k = some (.img d)) :
    ∃ (c : Tensor3) (interp : Interpolation),
      d.data.channels = [c] ∧
      dictGet out k = some (.img ⟨⟨[Tensor3.fromSitk
        (SitkImage.resampled (SitkImage.fromNib c d.affine)
          (SitkTransform.composite
            [SitkTransform.scale
              ((get_params ra.scales ra.degrees ra.isotropic u).1.map fun s => 1 / s),
             SitkTransform.euler3d
              ((get_params ra.scales ra.degrees ra.isotropic u).2.map np_radians)])
          interp)]⟩,
        d.affine, d.type_, d.path, d.stem⟩) := by
  obtain ⟨c, hc, hout⟩ := apply_transform_image ra u sample out h k d hk1 hk2 hd
  exact ⟨c, _, hc, hout⟩

/-- C7: every image dict whose `'type'` is `LABEL` is resampled with
nearest-neighbour interpolation regardless of the configured
interpolation, and every non-label image with the configured one. -/
theorem claim_C7 (ra : RandomAffine) (u : Fin 6 → ℚ) (sample out : Sample)
    (h : apply_transform ra u sample = some out)
    (k : String) (d : ImageDict)
    (hk1 : k ≠ "random_scaling") (hk2 : k ≠ "random_rotation")
    (hd : dictGet sample k = some (.img d)) :
    ∃ (c : Tensor3) (t : SitkTransform),
      d.data.channels = [c] ∧
      dictGet out k = some (.img ⟨⟨[Tensor3.fromSitk
        (SitkImage.resampled (SitkImage.fromNib c d.affine) t
          (if d.type_ = LABEL then Interpolation.NEAREST
           else ra.interpolation))]⟩,
        d.affine, d.type_, d.path, d.stem⟩) := by
  obtain ⟨c, hc, hout⟩ := apply_transform_image ra u sample out h k d hk1 hk2 hd
  exact ⟨c, _, hc, hout⟩

/-- C8: `apply_transform` keeps every field of each image dict other than
`DATA` (affine, type, path, stem), keeps non-image entries (away from the
two parameter keys it writes) untouched, and adds no key beyond
`'random_scaling'` and `'random_rotation'`. -/
theorem claim_C8 (ra : RandomAffine) (u : Fin 6 → ℚ) (sample out : Sample)
    (h : apply_transform ra u sample = some out) :
    (∀ (k : String) (d : ImageDict),
      k ≠ "random_scaling" → k ≠ "random_rotation" →
      dictGet sample k = some (.img d) →
      ∃ d', dictGet out k = some (.img d') ∧ d'.affine = d.affine ∧
        d'.type_ = d.type_ ∧ d'.path = d.path ∧ d'.stem = d.stem) ∧
    (∀ (k : String) (v : SampleValue),
      k ≠ "random_scaling" → k ≠ "random_rotation" →
      dictGet sample k = some v → is_image_dict v = false →
      dictGet out k = some v) ∧
    (∀ k : String, k ∈ out.map Prod.fst →
      k ∈ sample.map Prod.fst ∨ k = "random_scaling" ∨ k = "random_rotation") := by
  refine ⟨?_, ?_, ?_⟩
  · intro k d hk1 hk2 hd
    obtain ⟨c, hc, hout⟩ := apply_transform_image ra u sample out h k d hk1 hk2 hd
    exact ⟨_, hout, rfl, rfl, rfl, rfl⟩
  · intro k v hk1 hk2 hv hni
    exact apply_transform_nonimage ra u sample out h k v hk1 hk2 hv hni
  · intro k hk
    exact apply_transform_keys ra u sample out h k hk

/-! ## Concrete fixtures for the RandomAffine witnesses -/

/-- An intensity image dict for witness samples. -/
def dT1 : ImageDict := ⟨⟨[.raw 0 [2]]⟩, [[1]], "intensity", "p/t1.nii", "t1"⟩

/-- A label image dict for witness samples. -/
def dSeg : ImageDict := ⟨⟨[.raw 1 [2]]⟩, [[1]], "label", "p/seg.nii", "seg"⟩

/-- A witness sample with an intensity image, a label image and a
non-image entry. -/
def sampleW : Sample := [("t1", .img dT1), ("seg", .img dSeg), ("meta", .other 7)]

/-- A witness RandomAffine configuration. -/
def raW : RandomAffine := ⟨(1, 1), (0, 0), false, .LINEAR⟩

/-- Witness unit samples of the random generator. -/
def uW : Fin 6 → ℚ := fun _ => 0

/-- The scaling parameters sampled in the witness run. -/
def spW : List ℚ := (get_params raW.scales raW.degrees raW.isotropic uW).1

/-- The rotation parameters sampled in the witness run. -/
def rpW : List ℚ := (get_params raW.scales raW.degrees raW.isotropic uW).2

/-- The composed transform of the witness run. -/
noncomputable def transW : SitkTransform :=
  .composite [get_scaling_transform spW, get_rotation_transform rpW]

/-- The output sample of the witness run of `apply_transform`. -/
noncomputable def outW : Sample :=
  [("t1", .img ⟨⟨[.fromSitk (.resampled (.fromNib (.raw 0 [2]) [[1]])
      transW .LINEAR)]⟩, [[1]], "intensity", "p/t1.nii", "t1"⟩),
   ("seg", .img ⟨⟨[.fromSitk (.resampled (.fromNib (.raw 1 [2]) [[1]])
      transW .NEAREST)]⟩, [[1]], "label", "p/seg.nii", "seg"⟩),
   ("meta", .other 7),
   ("random_scaling", .floats spW),
   ("random_rotation", .floats rpW)]

theorem apply_transform_witness_run : apply_transform raW uW sampleW = some outW := rfl

/-- Witness for C1 on the concrete sample. -/
theorem claim_C1_witness :
    apply_transform raW uW sampleW = some outW ∧
    dictGet outW "random_scaling" = some (.floats spW) ∧
    dictGet outW "random_rotation" = some (.floats rpW) ∧
    (∃ (c : Tensor3) (t : SitkTransform) (interp : Interpolation),
      dT1.data.channels = [c] ∧
      dictGet outW "t1" = some (.img ⟨⟨[Tensor3.fromSitk
        (SitkImage.resampled (SitkImage.fromNib c dT1.affine) t interp)]⟩,
        dT1.affine, dT1.type_, dT1.path, dT1.stem⟩)) :=
  ⟨apply_transform_witness_run,
   (claim_C1 raW uW sampleW outW apply_transform_witness_run).1,
   (claim_C1 raW uW sampleW outW apply_transform_witness_run).2.1,
   (claim_C1 raW uW sampleW outW apply_transform_witness_run).2.2 "t1" dT1
     (by decide) (by decide) rfl⟩

/-- Witness for C5 on the concrete sample. -/
theorem claim_C5_witness :
    apply_transform raW uW sampleW = some outW ∧
    (∃ (c : Tensor3) (interp : Interpolation),
      dT1.data.channels = [c] ∧
      dictGet outW "t1" = some (.img ⟨⟨[Tensor3.fromSitk
        (SitkImage.resampled (SitkImage.fromNib c dT1.affine)
          (SitkTransform.composite
            [SitkTransform.scale (spW.map fun s => 1 / s),
             SitkTransform.euler3d (rpW.map np_radians)])
          interp)]⟩,
        dT1.affine, dT1.type_, dT1.path, dT1.stem⟩)) :=
  ⟨apply_transform_witness_run,
   claim_C5 raW uW sampleW outW apply_transform_witness_run "t1" dT1
     (by decide) (by decide) rfl⟩

/-- Witness for C7 on the concrete sample, at the label image. -/
theorem claim_C7_witness :
    apply_transform raW uW sampleW = some outW ∧
    (∃ (c : Tensor3) (t : SitkTransform),
      dSeg.data.channels = [c] ∧
      dictGet outW "seg" = some (.img ⟨⟨[Tensor3.fromSitk
        (SitkImage.resampled (SitkImage.fromNib c dSeg.affine) t
          (if dSeg.type_ = LABEL then Interpolation.NEAREST
           else raW.interpolation))]⟩,
        dSeg.affine, dSeg.type_, dSeg.path, dSeg.stem⟩)) :=
  ⟨apply_transform_witness_run,
   claim_C7 raW uW sampleW outW apply_transform_witness_run "seg" dSeg
     (by decide) (by decide) rfl⟩

/-- Witness for C8 on the concrete sample. -/
theorem claim_C8_witness :
    apply_transform raW uW sampleW = some outW ∧
    (∃ d', dictGet outW "t1" = some (.img d') ∧ d'.affine = dT1.affine ∧
      d'.type_ = dT1.type_ ∧ d'.path = dT1.path ∧ d'.stem = dT1.stem) ∧
    dictGet outW "meta" = some (.other 7) ∧
    ("meta" ∈ sampleW.map Prod.fst ∨ "meta" = "random_scaling" ∨
      "meta" = "random_rotation") :=
  ⟨apply_transform_witness_run,
   (claim_C8 raW uW sampleW outW apply_transform_witness_run).1 "t1" dT1
     (by decide) (by decide) rfl,
   (claim_C8 raW uW sampleW outW apply_transform_witness_run).2.1 "meta"
     (.other 7) (by decide) (by decide) rfl rfl,
   (claim_C8 raW uW sampleW outW apply_transform_witness_run).2.2 "meta"
     (by simp [outW])⟩

/-! ## Claim C6: bounds on the sampled parameters -/

theorem uniformDraw_mem (lo hi u : ℚ) (hlh : lo ≤ hi) (h0 : 0 ≤ u)
    (h1 : u < 1) : lo ≤ uniformDraw lo hi u ∧ uniformDraw lo hi u ≤ hi := by
  unfold uniformDraw
  constructor
  · nlinarith
  · nlinarith

/-- C6: `get_params` returns exactly three scaling factors in the scales
interval and exactly three rotation angles in the degrees interval; when
`isotropic` all three scaling factors equal the first sampled one. -/
theorem claim_C6 (scales degrees : ℚ × ℚ) (isotropic : Bool) (u : Fin 6 → ℚ)
    (hs : scales.1 ≤ scales.2) (hd : degrees.1 ≤ degrees.2)
    (hu : ∀ i, 0 ≤ u i ∧ u i < 1) :
    (get_params scales degrees isotropic u).1.length = 3 ∧
    (get_params scales degrees isotropic u).2.length = 3 ∧
    (∀ x ∈ (get_params scales degrees isotropic u).1,
      scales.1 ≤ x ∧ x ≤ scales.2) ∧
    (∀ x ∈ (get_params scales degrees isotropic u).2,
      degrees.1 ≤ x ∧ x ≤ degrees.2) ∧
    (isotropic = true → (get_params scales degrees isotropic u).1 =
      List.replicate 3 (uniformDraw scales.1 scales.2 (u 0))) := by
  have hmem : ∀ (lo hi : ℚ), lo ≤ hi → ∀ i : Fin 6,
      lo ≤ uniformDraw lo hi (u i) ∧ uniformDraw lo hi (u i) ≤ hi :=
    fun lo hi hlh i => uniformDraw_mem lo hi (u i) hlh (hu i).1 (hu i).2
  cases isotropic with
  | false =>
    refine ⟨rfl, rfl, ?_, ?_, by intro hh; exact absurd hh (by simp)⟩
    · intro x hx
      simp only [get_params, Bool.false_eq_true, if_false, List.mem_cons,
        List.not_mem_nil, or_false] at hx
      rcases hx with rfl | rfl | rfl
      · exact hmem _ _ hs 0
      · exact hmem _ _ hs 1
      · exact hmem _ _ hs 2
    · intro x hx
      simp only [get_params, List.mem_cons, List.not_mem_nil, or_false] at hx
      rcases hx with rfl | rfl | rfl
      · exact hmem _ _ hd 3
      · exact hmem _ _ hd 4
      · exact hmem _ _ hd 5
  | true =>
    refine ⟨rfl, rfl, ?_, ?_, fun _ => rfl⟩
    · intro x hx
      simp only [get_params, if_true, List.mem_cons, List.not_mem_nil,
        or_false] at hx
      rcases hx with rfl | rfl | rfl <;> exact hmem _ _ hs 0
    · intro x hx
      simp only [get_params, List.mem_cons, List.not_mem_nil, or_false] at hx
      rcases hx with rfl | rfl | rfl
      · exact hmem _ _ hd 3
      · exact hmem _ _ hd 4
      · exact hmem _ _ hd 5

/-- Witness for C6 at a concrete configuration. -/
theorem claim_C6_witness :
    ((1 : ℚ) ≤ 2) ∧ ((0 : ℚ) ≤ 0) ∧ (∀ i : Fin 6, 0 ≤ uW i ∧ uW i < 1) ∧
    (get_params (1, 2) (0, 0) false uW).1.length = 3 ∧
    (∀ x ∈ (get_params (1, 2) (0, 0) false uW).1, (1 : ℚ) ≤ x ∧ x ≤ 2) :=
  ⟨by norm_num, le_refl 0, fun _ => ⟨le_refl 0, by norm_num [uW]⟩,
   (claim_C6 (1, 2) (0, 0) false uW (by norm_num) (le_refl 0)
     (fun _ => ⟨le_refl 0, by norm_num [uW]⟩)).1,
   (claim_C6 (1, 2) (0, 0) false uW (by norm_num) (le_refl 0)
     (fun _ => ⟨le_refl 0, by norm_num [uW]⟩)).2.2.1⟩

/-! ## Claims C9 and C4: Image construction -/

/-- Characterization of `Image.__init__` on a path-like argument. -/
theorem mkImage_str (env : Env) (name s t : String) :
    mkImage env name (.str s) t =
      if (env.isFile (env.expanduser s) || env.isDir (env.expanduser s)) = true
      then .ok ⟨name, env.expanduser s, t⟩
      else .error (.fileNotFoundError
        ("File for image " ++ name ++ " not found: " ++ env.expanduser s)) := by
  simp only [mkImage, parse_path]
  by_cases hs : (env.isFile (env.expanduser s) || env.isDir (env.expanduser s)) = true
  · rw [if_pos hs, if_pos hs]
  · rw [if_neg hs, if_neg hs]

/-- C9: the `Image` constructor eagerly validates its path: `TypeError`
when the argument is not path-like, `FileNotFoundError` when the expanded
path is neither an existing file nor an existing directory, and otherwise
the expanded path is stored; every successfully constructed `Image` refers
to a path that existed at construction time. -/
theorem claim_C9 (env : Env) (name : String) :
    (∀ id, parse_path env name (.notPathlike id) =
      .error (.typeError "Conversion to path not possible for variable")) ∧
    (∀ s, (env.isFile (env.expanduser s) || env.isDir (env.expanduser s)) = true →
      parse_path env name (.str s) = .ok (env.expanduser s)) ∧
    (∀ s, (env.isFile (env.expanduser s) || env.isDir (env.expanduser s)) = false →
      ∃ msg, parse_path env name (.str s) = .error (.fileNotFoundError msg)) ∧
    (∀ (p : PathArg) (t : String) (img : ImageObj),
      mkImage env name p t = .ok img →
      (env.isFile img.path || env.isDir img.path) = true ∧
      ∃ s, p = .str s ∧ img.path = env.expanduser s) := by
  refine ⟨fun id => rfl, ?_, ?_, ?_⟩
  · intro s hs
    simp only [parse_path]
    rw [if_pos hs]
  · intro s hs
    refine ⟨"File for image " ++ name ++ " not found: " ++ env.expanduser s, ?_⟩
    simp only [parse_path]
    rw [if_neg (by simp [hs])]
  · intro p t img h
    cases p with
    | notPathlike id =>
      exact absurd h (by unfold mkImage parse_path; simp)
    | str s =>
      rw [mkImage_str] at h
      by_cases hs : (env.isFile (env.expanduser s) || env.isDir (env.expanduser s)) = true
      · rw [if_pos hs] at h
        simp only [Except.ok.injEq] at h
        subst h
        exact ⟨hs, s, rfl, rfl⟩
      · rw [if_neg hs] at h
        exact absurd h (by simp)

/-- A witness environment whose paths all exist as files. -/
def envW : Env := ⟨fun s => s, fun _ => true, fun _ => false,
  fun _ => (.raw 0 [2], [[1]])⟩

/-- A second witness environment: same file system, different data. -/
def envW2 : Env := ⟨fun s => s, fun _ => true, fun _ => false,
  fun _ => (.raw 9 [3], [])⟩

/-- A witness environment on which no path exists. -/
def envEmpty : Env := ⟨fun s => s, fun _ => false, fun _ => false,
  fun _ => (.raw 0 [2], [[1]])⟩

/-- Witness for C9 at concrete environments and paths. -/
theorem claim_C9_witness :
    parse_path envW "t1" (.notPathlike 0) =
      .error (.typeError "Conversion to path not possible for variable") ∧
    parse_path envW "t1" (.str "p") = .ok "p" ∧
    (∃ msg, parse_path envEmpty "t1" (.str "p") =
      .error (.fileNotFoundError msg)) ∧
    ((envW.isFile (ImageObj.mk "t1" "p" "intensity").path ||
      envW.isDir (ImageObj.mk "t1" "p" "intensity").path) = true ∧
     ∃ s, PathArg.str "p" = .str s ∧
      (ImageObj.mk "t1" "p" "intensity").path = envW.expanduser s) :=
  ⟨(claim_C9 envW "t1").1 0,
   (claim_C9 envW "t1").2.1 "p" rfl,
   (claim_C9 envEmpty "t1").2.2.1 "p" rfl,
   (claim_C9 envW "t1").2.2.2 (.str "p") "intensity" ⟨"t1", "p", "intensity"⟩ rfl⟩

/-- C4: `Image` is a value object with lazy loading: the constructor
stores name, parsed path and type and depends only on path existence
information (never on the image data), and the data tensor and affine are
read from disk exactly when `load` is called, at the stored path. -/
theorem claim_C4 (env env' : Env) (name : String) (p : PathArg) (t : String) :
    (env.expanduser = env'.expanduser → env.isFile = env'.isFile →
      env.isDir = env'.isDir → mkImage env name p t = mkImage env' name p t) ∧
    (∀ img, mkImage env name p t = .ok img →
      img.name = name ∧ img.type_ = t ∧ parse_path env name p = .ok img.path) ∧
    (∀ img : ImageObj, loadImage env img =
      (⟨[(env.readData img.path).1]⟩, (env.readData img.path).2)) := by
  refine ⟨?_, ?_, fun img => rfl⟩
  · intro h1 h2 h3
    unfold mkImage parse_path
    cases p with
    | notPathlike id => rfl
    | str s => rw [h1, h2, h3]
  · intro img h
    unfold mkImage at h
    cases hp : parse_path env name p with
    | error e => rw [hp] at h; exact absurd h (by simp)
    | ok q =>
      rw [hp] at h
      simp only [Except.ok.injEq] at h
      subst h
      exact ⟨rfl, rfl, rfl⟩

/-- Witness for C4: two environments that agree on path existence but
hold different image data construct the same `Image`; loading reads the
stored path. -/
theorem claim_C4_witness :
    mkImage envW "t1" (.str "p") "intensity" =
      mkImage envW2 "t1" (.str "p") "intensity" ∧
    ((ImageObj.mk "t1" "p" "intensity").name = "t1" ∧
     (ImageObj.mk "t1" "p" "intensity").type_ = "intensity" ∧
     parse_path envW "t1" (.str "p") =
       .ok (ImageObj.mk "t1" "p" "intensity").path) ∧
    loadImage envW ⟨"t1", "p", "intensity"⟩ =
      (⟨[(envW.readData "p").1]⟩, (envW.readData "p").2) :=
  ⟨(claim_C4 envW envW2 "t1" (.str "p") "intensity").1 rfl rfl rfl,
   (claim_C4 envW envW2 "t1" (.str "p") "intensity").2.1
     ⟨"t1", "p", "intensity"⟩ (by rw [mkImage_str]; rfl),
   (claim_C4 envW envW2 "t1" (.str "p") "intensity").2.2
     ⟨"t1", "p", "intensity"⟩⟩

/-! ## Claim C3: Subject validation -/

/-- The names of the `Image` elements of a `Subject` argument list. -/
def imageNames : List PyVal → List String
  | [] => []
  | .image im :: rest => im.name :: imageNames rest
  | .notImage _ :: rest => imageNames rest

theorem parse_images_loop_ok :
    ∀ (images : List PyVal) (names : List String),
    (∀ v ∈ images, ∃ im, v = .image im) →
    (names ++ imageNames images).Nodup →
    parse_images_loop names images = .ok () := by
  intro images
  induction images with
  | nil => intro names _ _; rfl
  | cons v rest ih =>
    intro names hall hnd
    obtain ⟨im, rfl⟩ := hall v (List.mem_cons_self v rest)
    rw [imageNames] at hnd
    have hnotin : im.name ∉ names := by
      intro hmem
      exact (List.nodup_append.mp hnd).2.2 hmem (List.mem_cons_self _ _)
    rw [parse_images_loop, if_neg hnotin]
    apply ih
    · intro v hv
      exact hall v (List.mem_cons_of_mem _ hv)
    · rw [List.append_assoc]
      exact hnd

theorem parse_images_loop_dup :
    ∀ (images : List PyVal) (names : List String),
    (∀ v ∈ images, ∃ im, v = .image im) →
    names.Nodup →
    ¬ (names ++ imageNames images).Nodup →
    ∃ msg, parse_images_loop names images = .error (.keyError msg) := by
  intro images
  induction images with
  | nil =>
    intro names _ hnd hdup
    exact absurd (by simpa [imageNames] using hnd) hdup
  | cons v rest ih =>
    intro names hall hnd hdup
    obtain ⟨im, rfl⟩ := hall v (List.mem_cons_self v rest)
    rw [imageNames] at hdup
    by_cases hmem : im.name ∈ names
    · exact ⟨_, by rw [parse_images_loop, if_pos hmem]⟩
    · have hnd' : (names ++ [im.name]).Nodup := by
        rw [List.nodup_append]
        exact ⟨hnd, List.nodup_singleton _, by
          intro a ha hb
          simp only [List.mem_singleton] at hb
          subst hb
          exact hmem ha⟩
      obtain ⟨msg, hmsg⟩ := ih (names ++ [im.name])
        (fun v hv => hall v (List.mem_cons_of_mem _ hv)) hnd'
        (by rw [List.append_assoc]; exact hdup)
      exact ⟨msg, by rw [parse_images_loop, if_neg hmem]; exact hmsg⟩

/-- C3: `Subject` construction raises whenever two of the (all-`Image`)
elements share a name, and succeeds on a non-empty all-`Image` list with
pairwise-distinct names, storing exactly those images in order. -/
theorem claim_C3 (images : List PyVal) (name : String) :
    ((∀ v ∈ images, ∃ im, v = .image im) → ¬ (imageNames images).Nodup →
      ∃ msg, mkSubject images name = .error (.keyError msg)) ∧
    (images ≠ [] → (∀ v ∈ images, ∃ im, v = .image im) →
      (imageNames images).Nodup → mkSubject images name = .ok ⟨images, name⟩) := by
  constructor
  · intro hall hdup
    have hne : images ≠ [] := by
      rintro rfl
      exact hdup (by simp [imageNames])
    obtain ⟨msg, hmsg⟩ := parse_images_loop_dup images [] hall List.nodup_nil
      (by simpa using hdup)
    refine ⟨msg, ?_⟩
    unfold mkSubject parse_images
    rw [if_neg (by simp [hne]), hmsg]
  · intro hne hall hnd
    unfold mkSubject parse_images
    rw [if_neg (by simp [hne]),
      parse_images_loop_ok images [] hall (by simpa using hnd)]

/-- Witness for C3: a duplicate name is rejected, distinct names are
accepted with the images kept in order. -/
theorem claim_C3_witness :
    (∃ msg, mkSubject [.image ⟨"a", "p", "intensity"⟩,
        .image ⟨"a", "r", "label"⟩] "s" = .error (.keyError msg)) ∧
    mkSubject [.image ⟨"a", "p", "intensity"⟩, .image ⟨"b", "q", "label"⟩] "s"
      = .ok ⟨[.image ⟨"a", "p", "intensity"⟩, .image ⟨"b", "q", "label"⟩], "s"⟩ :=
  ⟨(claim_C3 [.image ⟨"a", "p", "intensity"⟩, .image ⟨"a", "r", "label"⟩] "s").1
      (by intro v hv
          simp only [List.mem_cons, List.not_mem_nil, or_false] at hv
          rcases hv with rfl | rfl
          · exact ⟨_, rfl⟩
          · exact ⟨_, rfl⟩)
      (by simp [imageNames]),
   (claim_C3 [.image ⟨"a", "p", "intensity"⟩, .image ⟨"b", "q", "label"⟩] "s").2
      (by simp)
      (by intro v hv
          simp only [List.mem_cons, List.not_mem_nil, or_false] at hv
          rcases hv with rfl | rfl
          · exact ⟨_, rfl⟩
          · exact ⟨_, rfl⟩)
      (by simp [imageNames])⟩

/-! ## Claim C2: ImagesDataset.__getitem__ -/

theorem buildSample_some (env : Env) :
    ∀ (elems : List PyVal) (acc : Sample),
    (∀ v ∈ elems, ∃ im, v = .image im) →
    ∃ s, buildSample env elems acc = some s := by
  intro elems
  induction elems with
  | nil => intro acc _; exact ⟨acc, rfl⟩
  | cons v rest ih =>
    intro acc hall
    obtain ⟨im, rfl⟩ := hall v (List.mem_cons_self v rest)
    simp only [buildSample]
    exact ih _ (fun v hv => hall v (List.mem_cons_of_mem _ hv))

theorem buildSample_get_notmem (env : Env) :
    ∀ (elems : List PyVal) (acc s : Sample) (key : String),
    buildSample env elems acc = some s →
    key ∉ imageNames elems →
    dictGet s key = dictGet acc key := by
  intro elems
  induction elems with
  | nil =>
    intro acc s key h _
    simp only [buildSample, Option.some_inj] at h
    subst h
    rfl
  | cons v rest ih =>
    intro acc s key h hkey
    cases v with
    | notImage id => simp [buildSample] at h
    | image im =>
      rw [imageNames] at hkey
      simp only [List.mem_cons, not_or] at hkey
      simp only [buildSample] at h
      rw [ih _ _ _ h hkey.2]
      exact dictGet_dictSet_ne _ _ hkey.1

theorem buildSample_get (env : Env) :
    ∀ (elems : List PyVal) (acc s : Sample) (im : ImageObj),
    buildSample env elems acc = some s →
    (imageNames elems).Nodup →
    PyVal.image im ∈ elems →
    dictGet s im.name = some (buildEntry env im) := by
  intro elems
  induction elems with
  | nil => intro acc s im _ _ hmem; simp at hmem
  | cons v rest ih =>
    intro acc s im h hnd hmem
    cases v with
    | notImage id => simp [buildSample] at h
    | image im0 =>
      simp only [buildSample] at h
      rw [imageNames] at hnd
      rcases List.mem_cons.mp hmem with heq | hmem'
      · have him : im = im0 := by injection heq
        subst him
        have hni : im.name ∉ imageNames rest := (List.nodup_cons.mp hnd).1
        rw [buildSample_get_notmem env rest _ s im.name h hni]
        exact dictGet_dictSet_self acc im.name _
      · exact ih _ _ _ h (List.nodup_cons.mp hnd).2 hmem'

/-- C2: `ImagesDataset.__getitem__(i)` builds its sample from subject `i`:
a dict mapping each image's name to a dict of the loaded data tensor, the
affine, the type, the path string and the stem; a transform supplied at
construction or via `set_transform` is applied to the sample and its
result returned, and with no transform the untransformed sample is
returned. -/
theorem claim_C2 (env : Env) (ds : ImagesDataset) (i : ℕ)
    (h : i < ds.subjects.length) (tr : Sample → Sample)
    (hall : ∀ v ∈ (ds.subjects.get ⟨i, h⟩).images, ∃ im, v = .image im)
    (hnd : (imageNames (ds.subjects.get ⟨i, h⟩).images).Nodup) :
    ∃ base, buildSample env (ds.subjects.get ⟨i, h⟩).images [] = some base ∧
      (∀ im : ImageObj, PyVal.image im ∈ (ds.subjects.get ⟨i, h⟩).images →
        dictGet base im.name = some (.img ⟨(loadImage env im).1,
          (loadImage env im).2, im.type_, im.path, get_stem im.path⟩)) ∧
      getitem env ds i h = some (match ds.transform with
        | none => base
        | some t => t base) ∧
      (set_transform ds (some tr)).transform = some tr ∧
      (set_transform ds (some tr)).subjects = ds.subjects := by
  obtain ⟨base, hbase⟩ := buildSample_some env _ [] hall
  refine ⟨base, hbase, ?_, ?_, rfl, rfl⟩
  · intro im hmem
    exact buildSample_get env _ [] base im hbase hnd hmem
  · unfold getitem
    rw [hbase]
    cases ds.transform with
    | none => rfl
    | some t => rfl

/-- The image of the witness dataset. -/
def imW : ImageObj := ⟨"t1", "p/t1.nii", "intensity"⟩

/-- The witness subject. -/
def subjW : Subject := ⟨[.image imW], "sub"⟩

/-- The witness dataset, with no transform. -/
def dsW : ImagesDataset := ⟨[subjW], none⟩

theorem dsW_len : 0 < dsW.subjects.length := by decide

/-- The identity transform used in the witness. -/
def idT : Sample → Sample := fun s => s

/-- Witness for C2 on the concrete one-subject dataset. -/
theorem claim_C2_witness :
    (∀ v ∈ (dsW.subjects.get ⟨0, dsW_len⟩).images, ∃ im, v = .image im) ∧
    (imageNames (dsW.subjects.get ⟨0, dsW_len⟩).images).Nodup ∧
    ∃ base,
      buildSample envW (dsW.subjects.get ⟨0, dsW_len⟩).images [] = some base ∧
      (∀ im : ImageObj, PyVal.image im ∈ (dsW.subjects.get ⟨0, dsW_len⟩).images →
        dictGet base im.name = some (.img ⟨(loadImage envW im).1,
          (loadImage envW im).2, im.type_, im.path, get_stem im.path⟩)) ∧
      getitem envW dsW 0 dsW_len = some (match dsW.transform with
        | none => base
        | some t => t base) ∧
      (set_transform dsW (some idT)).transform = some idT ∧
      (set_transform dsW (some idT)).subjects = dsW.subjects :=
  ⟨by intro v hv
      simp only [dsW, subjW, List.get, List.mem_cons, List.not_mem_nil,
        or_false] at hv
      exact ⟨imW, hv⟩,
   by decide,
   claim_C2 envW dsW 0 dsW_len idT
     (by intro v hv
         simp only [dsW, subjW, List.get, List.mem_cons, List.not_mem_nil,
           or_false] at hv
         exact ⟨imW, hv⟩)
     (by decide)⟩

end Torchio
